import Mathlib

/-!
Shallow embedding of the `pierrre/di` dependency-injection container.

Sources embedded (Go):
- `container.go` : `Container`, `Key`, `Container.get`, `Container.Close`
- `src/unnamed/part_002` (service wrapper file) : `serviceWrapper.get`,
  `serviceWrapper.ensureInitialized`, `serviceWrapper.close`, `serviceWrapperMap`
- `mutex.go` : the cancelable, cycle-aware `mutex.lock` / `mutex.unlock`
- `error.go` : `ServiceError`, `PanicError`, sentinel errors, `recoverPanicToError`
- `dependency.go` : `Dependency`, `dependencyCollector`

Modelling choices (each annotated at the definition it concerns):
- `reflect.Type` is modelled by its full name (a `String`), which is exactly
  how the code uses it (display, equality of keys, dependency labels).
- Builders are user code; they are modelled by the shape every builder in the
  repository's tests and examples has: a sequence of nested `Get` calls that
  forward the received context and abort on the first failed nested `Get`,
  followed by an outcome (return a value and an optional closer, return an
  error, or panic).
- The interpreter is sequential (one goroutine).  In a sequential execution a
  wrapper's mutex is free unless it is held by an enclosing frame of the same
  call path, i.e. unless it occurs in the context's `mutexList` chain; so the
  channel-acquire always succeeds once the cycle check has passed.  The full
  mutex (channel possibly held by another goroutine, context possibly done)
  is modelled separately by `mutexLock`.
- Go's `context.Context` carries the `mutexList` (lock chain) and the current
  `dependencyCollector`.  The chain is passed explicitly.  The collector is
  represented by the interpreter returning each got service's dependency node
  to the caller, which accumulates them in order of completed nested `Get`s;
  this is observably the same as the context-carried mutable collector in a
  sequential run.  A top-level call has no ambient collector, so the final
  `addDependencyToCollectorFromContext` is a no-op there.
- The interpreter is fuel-bounded; `GoError.outOfFuel` is an artifact of the
  bound and is never produced by the embedded code when fuel suffices.
-/

/-- Identity of a service instance (`any` in Go).  Claims only compare
instances for identity, so a numeric tag suffices. -/
abbrev Service := Nat

/-- Model of `Key` from `container.go`: `{Type reflect.Type, Name string}`.  The
`reflect.Type` is represented by its full name, which is all the code ever
uses of it (`reflectutil.TypeFullName`). -/
structure Key where
  typ : String
  name : String
deriving DecidableEq

/-- Model of `Key.String` from `container.go`: `"<type>"`, or `"<type>(<name>)"` when
the name is non-empty. -/
def keyString (k : Key) : String :=
  if k.name = "" then k.typ else k.typ ++ "(" ++ k.name ++ ")"

/-- Errors of the package (`error.go`), plus generic user errors.  Composite
errors keep their wrapped cause as a subterm.  `errors.Join` results are kept
as a `List GoError` at the call site (`containerClose`) instead of a
constructor, since no claim inspects the joined value itself. -/
inductive GoError where
  /-- sentinel `ErrNotSet` -/
  | notSet
  /-- sentinel `ErrAlreadySet` -/
  | alreadySet
  /-- sentinel `ErrCycle` -/
  | cycle
  /-- sentinel `context.Canceled` -/
  | canceled
  /-- sentinel `context.DeadlineExceeded` -/
  | deadlineExceeded
  /-- a user error created by `errors.New` inside a builder or closer -/
  | msg (s : String)
  /-- wrapper `ServiceError` holding an error and a `Key` -/
  | serviceError (key : Key) (err : GoError)
  /-- a `PanicError` whose `Recovered` field holds an error value -/
  | panicErrorE (err : GoError)
  /-- a `PanicError` whose `Recovered` field holds a non-error value (a string) -/
  | panicErrorS (s : String)
  /-- artifact of the fuel-bounded interpreter, not an error of the code -/
  | outOfFuel
deriving DecidableEq

/-- Model of the `Error()` strings: `ServiceError.Error` is `fmt.Sprintf("service %s: %v",
err.Key, err.error)` (`error.go` lines 27-29), `PanicError.Error` is
`fmt.Sprintf("panic: %v", err.Recovered)`. -/
def errorString : GoError → String
  | .notSet => "not set"
  | .alreadySet => "already set"
  | .cycle => "cycle"
  | .canceled => "context canceled"
  | .deadlineExceeded => "context deadline exceeded"
  | .msg s => s
  | .serviceError k e => "service " ++ keyString k ++ ": " ++ errorString e
  | .panicErrorE e => "panic: " ++ errorString e
  | .panicErrorS s => "panic: " ++ s
  | .outOfFuel => "out of fuel"

/-- Model of `Unwrap`: `ServiceError.Unwrap` returns the wrapped error; on a
`PanicError`, `Unwrap` returns `err.Recovered.(error)`, which is `nil` when
the recovered value is not an error.  Sentinel and `errors.New` errors have
no `Unwrap`. -/
def errorUnwrap : GoError → Option GoError
  | .serviceError _ e => some e
  | .panicErrorE e => some e
  | _ => none

/-- The `==` test of Go's `errors.Is`: two error values are identical only
when both are the same sentinel (`ErrNotSet`, `ErrAlreadySet`, `ErrCycle`,
`context.Canceled`, `context.DeadlineExceeded`).  Distinct `errors.New`
values and freshly allocated composite errors are never `==` a target. -/
def sentinelBeq : GoError → GoError → Bool
  | .notSet, .notSet => true
  | .alreadySet, .alreadySet => true
  | .cycle, .cycle => true
  | .canceled, .canceled => true
  | .deadlineExceeded, .deadlineExceeded => true
  | _, _ => false

/-- Model of `errors.Is`: test identity at each level, else follow `Unwrap`. -/
def errorIs : GoError → GoError → Bool
  | e@(.serviceError _ inner), t => sentinelBeq e t || errorIs inner t
  | e@(.panicErrorE inner), t => sentinelBeq e t || errorIs inner t
  | e, t => sentinelBeq e t

/-- A value recovered from a builder panic: either an error value or a
non-error value (modelled as a string), the only distinction `PanicError`'s
methods make of `Recovered any`. -/
inductive PanicVal where
  | errVal (e : GoError)
  | strVal (s : String)
deriving DecidableEq

/-- Model of `recoverPanicToError` (`error.go` lines 60-67): the recovered value is
stored in a `PanicError`. -/
def PanicVal.toPanicError : PanicVal → GoError
  | .errVal e => .panicErrorE e
  | .strVal s => .panicErrorS s

/-- Result of calling a stored closer (`Close = func(ctx) error`): `none`
models a `nil` return, `some e` a teardown failure. -/
abbrev CloserRet := Option GoError

/-- What a builder does after its nested `Get`s all succeeded. -/
inductive BuilderOutcome where
  /-- return `(service, closer, nil)`; `cl = none` models a `nil` closer -/
  | ok (v : Service) (cl : Option CloserRet)
  /-- return `(zero, nil, err)` -/
  | err (e : GoError)
  /-- panic with the given value -/
  | panics (pv : PanicVal)
deriving DecidableEq

/-- A builder `func(ctx, ctn) (any, Close, error)` as user code is written in
this repository: perform `gets` in order with the received context,
returning the first failed nested `Get`'s error as the builder's error, then
produce `outcome`. -/
structure BuilderSpec where
  gets : List Key
  outcome : BuilderOutcome
deriving DecidableEq

/-- Model of `Dependency` (`dependency.go`): `{Type, Name, Dependencies}`; the
`reflectType` field duplicates `Type` under the string representation of
types and is dropped. -/
structure Dependency where
  type : String
  name : String
  dependencies : List Dependency

/-- Model of `serviceWrapper` (service wrapper file, lines 118-127).  The `mu` field
is the per-entry mutex; its identity is the entry's key (one wrapper per key,
wrappers are never replaced), so it needs no separate representation.  `typ`
duplicates `key.Type` in this snapshot and is dropped. -/
structure serviceWrapper where
  key : Key
  builder : BuilderSpec
  initialized : Bool
  service : Option Service
  cl : Option CloserRet
  dependency : Option Dependency

/-- Model of `newServiceWrapper`. -/
def newServiceWrapper (key : Key) (b : BuilderSpec) : serviceWrapper :=
  { key := key, builder := b, initialized := false, service := none,
    cl := none, dependency := none }

/-- The `serviceWrapperMap` of a `Container`, as an association list in
insertion (`Set`) order.  Go's map itself is unordered; every ordered
traversal in the code (`Close`) sorts explicitly first. -/
abbrev Container := List (Key × serviceWrapper)

/-- Model of `serviceWrapperMap.get` (returns `ErrNotSet` when absent; here the
absence case is the `none`). -/
def lookupService : Container → Key → Option serviceWrapper
  | [], _ => none
  | (k, sw) :: rest, key => if k = key then some sw else lookupService rest key

/-- In-place mutation of the wrapper stored for `key` (Go mutates through the
`*serviceWrapper` pointer held in the map). -/
def updateService : Container → Key → (serviceWrapper → serviceWrapper) → Container
  | [], _, _ => []
  | (k, sw) :: rest, key, fn =>
    if k = key then (k, fn sw) :: rest else (k, sw) :: updateService rest key fn

/-- Observable events of a run: a builder invocation, or a close attempt on
an entry. -/
inductive Event where
  | build (k : Key)
  | closeAttempt (k : Key)
deriving DecidableEq

/-- Number of invocations of `k`'s builder recorded in a log. -/
def countBuild (k : Key) (log : List Event) : Nat :=
  log.countP (fun ev => decide (ev = Event.build k))

/-- Result of `mutex.lock`. -/
inductive LockResult where
  /-- acquired; the returned context carries the extended chain -/
  | acquired (chain : List Key)
  /-- returned an error without acquiring -/
  | failed (e : GoError)
  /-- both select branches unavailable: the goroutine waits -/
  | blocked
deriving DecidableEq

/-- Model of `mutex.lock` (`mutex.go` lines 17-34).  `chain` is the `mutexList` found
in the context (mutexes identified by their entry's key), `heldElsewhere`
says whether the channel permit is currently taken by another goroutine, and
`ctxErr` is `ctx.Err()` when the context's `Done` channel is closed.  The
walk over `previous` happens before the `select`, so a cycle fails without
any blocking.  When the permit is free and the context is also done, Go's
`select` picks a ready case nondeterministically; this model prefers the
acquire, and no claim depends on that race. -/
def mutexLock (m : Key) (chain : List Key) (heldElsewhere : Bool)
    (ctxErr : Option GoError) : LockResult :=
  if m ∈ chain then .failed .cycle
  else if heldElsewhere then
    match ctxErr with
    | some e => .failed e
    | none => .blocked
  else .acquired (m :: chain)

/-- Result triple of a `Get`: final container, `(service, dependency)` or
error, and the event log. -/
abbrev GetRes := Container × Except GoError (Option Service × Option Dependency) × List Event

/-- The loop a builder body runs (see `BuilderSpec`): nested `Get`s in order,
each successful one contributing the got entry's dependency node to the
enclosing build's `dependencyCollector`
(`addDependencyToCollectorFromContext`), the first failure aborting with
that error.  `getFn` is the recursive `Get` with the builder's context. -/
def runBuilderGets (getFn : Container → Key → GetRes) :
    Container → List Key → Container × Except GoError (List Dependency) × List Event
  | st, [] => (st, .ok [], [])
  | st, g :: gs =>
    match getFn st g with
    | (st1, .error e, log1) => (st1, .error e, log1)
    | (st1, .ok (_, d?), log1) =>
      match runBuilderGets getFn st1 gs with
      | (st2, .error e, log2) => (st2, .error e, log1 ++ log2)
      | (st2, .ok ds, log2) =>
        (st2, .ok (match d? with | some dd => dd :: ds | none => ds), log1 ++ log2)

/-- One step of `Container.get` (`container.go` lines 25-32) fused with
`serviceWrapper.get` and `serviceWrapper.ensureInitialized` (service wrapper
file, lines 138-150 and 165-185), with `recur` standing for the nested
`Get`s a builder performs:

- `services.get` miss returns `ErrNotSet`, wrapped with the key by
  `wrapReturnServiceError`;
- `sw.mu.lock(ctx)`: sequentially the permit is free unless the mutex is in
  the context's chain, so the lock reduces to the cycle check (see
  `mutexLock`); a cycle error is wrapped with the key;
- `ensureInitialized`: on the fast path return the cached fields; otherwise
  invoke the builder (logged as `Event.build`), convert a panic via
  `recoverPanicToError`, and on success store service, closer and the new
  `Dependency{Type, Name, collected children}` before returning.  Builder
  errors are wrapped with the key by `Container.get`'s deferred wrap. -/
def containerGetAux (recur : Container → List Key → Key → GetRes)
    (st : Container) (chain : List Key) (key : Key) : GetRes :=
  match lookupService st key with
  | none => (st, .error (.serviceError key .notSet), [])
  | some sw =>
    if key ∈ chain then (st, .error (.serviceError key .cycle), [])
    else if sw.initialized then (st, .ok (sw.service, sw.dependency), [])
    else
      match runBuilderGets (fun s g => recur s (key :: chain) g) st sw.builder.gets with
      | (st1, .error e, log1) => (st1, .error (.serviceError key e), .build key :: log1)
      | (st1, .ok ds, log1) =>
        match sw.builder.outcome with
        | .err e => (st1, .error (.serviceError key e), .build key :: log1)
        | .panics pv => (st1, .error (.serviceError key pv.toPanicError), .build key :: log1)
        | .ok v cl =>
          let dep : Dependency := { type := key.typ, name := key.name, dependencies := ds }
          (updateService st1 key (fun swCur =>
            { swCur with initialized := true, service := some v, cl := cl,
                         dependency := some dep }),
           .ok (some v, some dep), .build key :: log1)

/-- Fuel-bounded `Get`: `containerGet fuel st chain key` runs
`Container.get(ctx, key)` where `ctx` carries the lock chain `chain` (empty
for a top-level call). -/
def containerGet : Nat → Container → List Key → Key → GetRes
  | 0, st, _, _ => (st, .error .outOfFuel, [])
  | f + 1, st, chain, key => containerGetAux (containerGet f) st chain key

/-- Model of `Container.getDependency` + `serviceWrapper.getDependency` for a
top-level call: identical to `serviceWrapper.get` except that the dependency
node is returned instead of the service (and the collector contribution,
a no-op at top level where no collector is in the context, is skipped). -/
def containerGetDependency (f : Nat) (st : Container) (key : Key) :
    Container × Except GoError (Option Dependency) × List Event :=
  match containerGet f st [] key with
  | (st', .ok (_, d?), log) => (st', .ok d?, log)
  | (st', .error e, log) => (st', .error e, log)

/-- A sequence of top-level `Get` calls (each with a fresh context: empty
chain, no collector). -/
def runGetSeq : Nat → Container → List Key → Container × List Event
  | _, st, [] => (st, [])
  | f, st, k :: ks =>
    match containerGet f st [] k with
    | (st1, _, log1) =>
      match runGetSeq f st1 ks with
      | (st2, log2) => (st2, log1 ++ log2)

/-- Model of `serviceWrapper.close` (service wrapper file, lines 187-204), after the
mutex is acquired (sequential top-level `Close`, free permit, empty chain):
a non-initialized wrapper returns `nil` untouched; otherwise the stored
closer (if any) is called, then the wrapper is reset to uninitialized with
`service`, `cl` and `dependency` cleared, and the closer's error (if any) is
returned. -/
def serviceWrapperClose (sw : serviceWrapper) : serviceWrapper × Option GoError :=
  if sw.initialized then
    ({ sw with initialized := false, service := none, cl := none, dependency := none },
     match sw.cl with
     | some ret => ret
     | none => none)
  else (sw, none)

/-- The cleared build state `serviceWrapper.close` leaves behind. -/
def resetWrapper (sw : serviceWrapper) : serviceWrapper :=
  { sw with initialized := false, service := none, cl := none, dependency := none }

/-- Comparison `cmp.Compare(a.key.String(), b.key.String()) != +1`, the order
`Container.Close` sorts by. -/
def closeLe (a b : serviceWrapper) : Bool :=
  (compare (keyString a.key) (keyString b.key)).isLE

/-- Insertion into a sorted list (model of `slices.SortFunc`'s result). -/
def insertSorted (x : serviceWrapper) : List serviceWrapper → List serviceWrapper
  | [] => [x]
  | y :: ys => if closeLe x y then x :: y :: ys else y :: insertSorted x ys

/-- Deterministic sort of the wrappers by `key.String()`
(`slices.SortFunc(sws, cmp.Compare on key strings)` in `Container.Close`). -/
def sortServices : List serviceWrapper → List serviceWrapper
  | [] => []
  | x :: xs => insertSorted x (sortServices xs)

/-- The loop body of `Container.Close` (`container.go` lines 57-64): close
each wrapper in turn — reading its current state through the pointer — wrap
every failure with the wrapper's key, and collect all failures.  No failure
stops the loop. -/
def closeLoop : Container → List serviceWrapper → Container × List GoError × List Event
  | st, [] => (st, [], [])
  | st, x :: rest =>
    match serviceWrapperClose ((lookupService st x.key).getD x) with
    | (x', errOpt) =>
      match closeLoop (updateService st x.key (fun _ => x')) rest with
      | (st2, errs, log) =>
        (st2,
         (match errOpt with
          | some e => GoError.serviceError x.key e :: errs
          | none => errs),
         Event.closeAttempt x.key :: log)

/-- Model of `Container.Close` (`container.go` lines 52-66): snapshot the wrappers
(`getValues`), sort them by key string, close every one, and return the
collected per-entry errors.  `errors.Join` of that list is `nil` exactly
when the list is empty. -/
def containerClose (st : Container) : Container × List GoError × List Event :=
  closeLoop st (sortServices (st.map Prod.snd))

/-- Well-formedness the container maintains for its map: keys are unique
(`serviceWrapperMap.set` refuses duplicates) and each wrapper records the
key it is stored under (`newServiceWrapper(key, b)` in `Container.set`). -/
def WfKeys (st : Container) : Prop :=
  (st.map Prod.fst).Nodup ∧ ∀ p ∈ st, p.2.key = p.1

/-- The root labels of a stored dependency node. -/
def depLabels : Option Dependency → Option (String × String)
  | some d => some (d.type, d.name)
  | none => none

/-- An initialized wrapper's dependency node exists and carries the
wrapper's own type and name (`ensureInitialized` builds it that way). -/
def DepOk (k : Key) (sw : serviceWrapper) : Prop :=
  sw.initialized = true → depLabels sw.dependency = some (k.typ, k.name)

/-- Container invariant about stored dependency nodes. -/
def WfDeps (st : Container) : Prop :=
  ∀ p ∈ st, DepOk p.1 p.2

instance (st : Container) : Decidable (WfKeys st) := by
  unfold WfKeys
  infer_instance

instance (k : Key) (sw : serviceWrapper) : Decidable (DepOk k sw) := by
  unfold DepOk
  infer_instance

instance (st : Container) : Decidable (WfDeps st) := by
  unfold WfDeps
  infer_instance

/-! Concrete fixtures used by witnesses and counterexamples. -/

/-- The default-named `string` key. -/
def kStr : Key := ⟨"string", ""⟩

/-- Key `string(a)`. -/
def keyA : Key := ⟨"string", "a"⟩

/-- Key `string(b)`. -/
def keyB : Key := ⟨"string", "b"⟩

/-- Key `string(c)`. -/
def keyC : Key := ⟨"string", "c"⟩

/-- The a → b → c → a cycle container of the repository's cycle tests. -/
def cycleContainer : Container :=
  [(keyA, newServiceWrapper keyA ⟨[keyB], .ok 1 none⟩),
   (keyB, newServiceWrapper keyB ⟨[keyC], .ok 2 none⟩),
   (keyC, newServiceWrapper keyC ⟨[keyA], .ok 3 none⟩)]

/-- An already-built wrapper for `kStr` (state after a successful `Get`). -/
def builtWrapper : serviceWrapper :=
  { key := kStr, builder := ⟨[], .ok 7 none⟩, initialized := true,
    service := some 7, cl := none, dependency := some ⟨"string", "", []⟩ }

/-- A one-entry container whose service is already built. -/
def builtContainer : Container := [(kStr, builtWrapper)]

/-- A one-entry container whose builder fails with a user error. -/
def failingContainer : Container :=
  [(kStr, newServiceWrapper kStr ⟨[], .err (.msg "error")⟩)]

/-- A one-entry container, not yet built. -/
def freshContainer : Container :=
  [(kStr, newServiceWrapper kStr ⟨[], .ok 7 none⟩)]

/-- An already-built wrapper for `string(a)` whose closer fails. -/
def badCloserWrapper : serviceWrapper :=
  { key := keyA, builder := ⟨[], .ok 1 (some (some (.msg "boom")))⟩,
    initialized := true, service := some 1,
    cl := some (some (.msg "boom")), dependency := some ⟨"string", "a", []⟩ }

/-- An already-built wrapper for `string(b)` whose closer succeeds. -/
def goodCloserWrapper : serviceWrapper :=
  { key := keyB, builder := ⟨[], .ok 2 (some none)⟩,
    initialized := true, service := some 2,
    cl := some none, dependency := some ⟨"string", "b", []⟩ }

/-- Two built entries, `string(a)`'s closer failing, `string(b)`'s succeeding. -/
def closeErrContainer : Container :=
  [(keyA, badCloserWrapper), (keyB, goodCloserWrapper)]

/-- A one-entry container whose builder panics with a non-error value. -/
def panicStrContainer : Container :=
  [(kStr, newServiceWrapper kStr ⟨[], .panics (.strVal "boom")⟩)]

/-- A one-entry container whose builder panics with an error value. -/
def panicErrContainer : Container :=
  [(kStr, newServiceWrapper kStr ⟨[], .panics (.errVal (.msg "boom"))⟩)]

/-- Container where `string(a)`'s builder Gets `string(b)`. -/
def depContainer : Container :=
  [(keyA, newServiceWrapper keyA ⟨[keyB], .ok 1 none⟩),
   (keyB, newServiceWrapper keyB ⟨[], .ok 2 none⟩)]

/-- State of `depContainer` after a successful build of `string(a)`. -/
def depContainerBuilt : Container :=
  [(keyA, { key := keyA, builder := ⟨[keyB], .ok 1 none⟩, initialized := true,
            service := some 1, cl := none,
            dependency := some ⟨"string", "a", [⟨"string", "b", []⟩]⟩ }),
   (keyB, { key := keyB, builder := ⟨[], .ok 2 none⟩, initialized := true,
            service := some 2, cl := none,
            dependency := some ⟨"string", "b", []⟩ })]

/-! Basic lemmas about the association-list container. -/

theorem lookupService_update_self {st : Container} {k : Key} {sw : serviceWrapper}
    (fn : serviceWrapper → serviceWrapper) (h : lookupService st k = some sw) :
    lookupService (updateService st k fn) k = some (fn sw) := by
  induction st with
  | nil => simp [lookupService] at h
  | cons p rest ih =>
    obtain ⟨k0, sw0⟩ := p
    by_cases hk : k0 = k
    · subst hk
      simp [lookupService] at h
      simp [updateService, lookupService, h]
    · simp [lookupService, hk] at h
      simp [updateService, lookupService, hk, ih h]

theorem lookupService_update_ne {st : Container} {k k' : Key}
    (fn : serviceWrapper → serviceWrapper) (h : k' ≠ k) :
    lookupService (updateService st k fn) k' = lookupService st k' := by
  induction st with
  | nil => simp [updateService]
  | cons p rest ih =>
    obtain ⟨k0, sw0⟩ := p
    by_cases hk : k0 = k
    · subst hk
      have : k0 ≠ k' := fun hh => h hh.symm
      simp [updateService, lookupService, this]
    · by_cases hk' : k0 = k'
      · subst hk'
        simp [updateService, lookupService, hk]
      · simp [updateService, lookupService, hk, hk', ih]

theorem updateService_map_fst (st : Container) (k : Key)
    (fn : serviceWrapper → serviceWrapper) :
    (updateService st k fn).map Prod.fst = st.map Prod.fst := by
  induction st with
  | nil => simp [updateService]
  | cons p rest ih =>
    obtain ⟨k0, sw0⟩ := p
    by_cases hk : k0 = k <;> simp [updateService, hk, ih]

theorem mem_of_lookupService {st : Container} {k : Key} {sw : serviceWrapper}
    (h : lookupService st k = some sw) : (k, sw) ∈ st := by
  induction st with
  | nil => simp [lookupService] at h
  | cons p rest ih =>
    obtain ⟨k0, sw0⟩ := p
    by_cases hk : k0 = k
    · subst hk
      simp [lookupService] at h
      simp [h]
    · simp [lookupService, hk] at h
      exact List.mem_cons_of_mem _ (ih h)

theorem lookupService_eq_of_mem {st : Container} {k : Key} {sw : serviceWrapper}
    (hnd : (st.map Prod.fst).Nodup) (hm : (k, sw) ∈ st) :
    lookupService st k = some sw := by
  induction st with
  | nil => simp at hm
  | cons p rest ih =>
    obtain ⟨k0, sw0⟩ := p
    rw [List.map_cons, List.nodup_cons] at hnd
    rcases List.mem_cons.mp hm with heq | hmem
    · rw [Prod.mk.injEq] at heq
      simp [lookupService, heq.1, heq.2]
    · have hk : k0 ≠ k := by
        intro hkk
        subst hkk
        exact hnd.1 (List.mem_map.mpr ⟨(k0, sw), hmem, rfl⟩)
      simp [lookupService, hk]
      exact ih hnd.2 hmem

/-! Generic invariant propagation through a builder's nested `Get`s. -/

theorem runBuilderGets_inv (getFn : Container → Key → GetRes) (Q : Container → Prop)
    (E : Event → Prop)
    (h : ∀ s g, Q s → Q (getFn s g).1 ∧ ∀ ev ∈ (getFn s g).2.2, E ev) :
    ∀ (gs : List Key) (st : Container), Q st →
      Q (runBuilderGets getFn st gs).1 ∧
      ∀ ev ∈ (runBuilderGets getFn st gs).2.2, E ev := by
  intro gs
  induction gs with
  | nil =>
    intro st hQ
    simpa [runBuilderGets] using hQ
  | cons g gs ih =>
    intro st hQ
    obtain ⟨hQ1, hE1⟩ := h st g hQ
    rcases hg : getFn st g with ⟨st1, r1, log1⟩
    rw [hg] at hQ1 hE1
    simp only at hQ1 hE1
    cases r1 with
    | error e =>
      refine ⟨?_, ?_⟩ <;> simp [runBuilderGets, hg]
      · exact hQ1
      · exact hE1
    | ok vd =>
      obtain ⟨v, dep?⟩ := vd
      obtain ⟨hQ2, hE2⟩ := ih st1 hQ1
      rcases hr : runBuilderGets getFn st1 gs with ⟨st2, r2, log2⟩
      rw [hr] at hQ2 hE2
      simp only at hQ2 hE2
      cases r2 with
      | error e =>
        refine ⟨?_, ?_⟩
        · simpa [runBuilderGets, hg, hr] using hQ2
        · intro ev hev
          simp [runBuilderGets, hg, hr] at hev
          rcases hev with hev | hev
          · exact hE1 ev hev
          · exact hE2 ev hev
      | ok ds =>
        refine ⟨?_, ?_⟩
        · simpa [runBuilderGets, hg, hr] using hQ2
        · intro ev hev
          simp [runBuilderGets, hg, hr] at hev
          rcases hev with hev | hev
          · exact hE1 ev hev
          · exact hE2 ev hev

/-- An entry whose mutex is held somewhere in the current lock chain is never
touched by a `Get` on that chain: its wrapper is not mutated and its builder
is not invoked (re-entry fails the cycle check before reaching it). -/
theorem containerGet_preserve_locked :
    ∀ (f : Nat) (st : Container) (chain : List Key) (key k0 : Key)
      (sw0 : serviceWrapper), k0 ∈ chain → lookupService st k0 = some sw0 →
      lookupService (containerGet f st chain key).1 k0 = some sw0 ∧
      Event.build k0 ∉ (containerGet f st chain key).2.2 := by
  intro f
  induction f with
  | zero =>
    intro st chain key k0 sw0 _ h0
    simpa [containerGet] using h0
  | succ f ih =>
    intro st chain key k0 sw0 hk0 h0
    show lookupService (containerGetAux (containerGet f) st chain key).1 k0 = some sw0 ∧
      Event.build k0 ∉ (containerGetAux (containerGet f) st chain key).2.2
    rcases hlk : lookupService st key with _ | sw
    · simpa [containerGetAux, hlk] using h0
    · by_cases hkc : key ∈ chain
      · simpa [containerGetAux, hlk, hkc] using h0
      · have hne : key ≠ k0 := fun hh => hkc (hh ▸ hk0)
        by_cases hin : sw.initialized
        · simpa [containerGetAux, hlk, hkc, hin] using h0
        · have hrun := runBuilderGets_inv (fun s g => containerGet f s (key :: chain) g)
            (fun s => lookupService s k0 = some sw0) (fun ev => ev ≠ Event.build k0)
            (fun s g hQ => by
              obtain ⟨h1, h2⟩ := ih s (key :: chain) g k0 sw0 (List.mem_cons_of_mem _ hk0) hQ
              exact ⟨h1, fun ev hev hh => h2 (hh ▸ hev)⟩)
            sw.builder.gets st h0
          rcases hR : runBuilderGets (fun s g => containerGet f s (key :: chain) g)
              st sw.builder.gets with ⟨st1, r1, log1⟩
          rw [hR] at hrun
          simp only at hrun
          obtain ⟨hQ1, hE1⟩ := hrun
          have hbne : Event.build key ≠ Event.build k0 := by
            intro hh
            exact hne (Event.build.injEq .. ▸ hh)
          cases r1 with
          | error e =>
            refine ⟨?_, ?_⟩
            · simpa [containerGetAux, hlk, hkc, hin, hR] using hQ1
            · intro hev
              simp [containerGetAux, hlk, hkc, hin, hR] at hev
              rcases hev with hev | hev
              · exact hne hev.symm
              · exact hE1 _ hev rfl
          | ok ds =>
            have hup := fun (fnx : serviceWrapper → serviceWrapper) =>
              @lookupService_update_ne st1 key k0 fnx (fun hh => hne hh.symm)
            rcases houc : sw.builder.outcome with ⟨v, cl⟩ | e | pv
            · refine ⟨?_, ?_⟩
              · simpa [containerGetAux, hlk, hkc, hin, hR, houc, hup] using hQ1
              · intro hev
                simp [containerGetAux, hlk, hkc, hin, hR, houc] at hev
                rcases hev with hev | hev
                · exact hne hev.symm
                · exact hE1 _ hev rfl
            · refine ⟨?_, ?_⟩
              · simpa [containerGetAux, hlk, hkc, hin, hR, houc] using hQ1
              · intro hev
                simp [containerGetAux, hlk, hkc, hin, hR, houc] at hev
                rcases hev with hev | hev
                · exact hne hev.symm
                · exact hE1 _ hev rfl
            · refine ⟨?_, ?_⟩
              · simpa [containerGetAux, hlk, hkc, hin, hR, houc] using hQ1
              · intro hev
                simp [containerGetAux, hlk, hkc, hin, hR, houc] at hev
                rcases hev with hev | hev
                · exact hne hev.symm
                · exact hE1 _ hev rfl

/-- An entry that is already initialized is never mutated and its builder is
never invoked by any `Get`: a `Get` on it takes the fast path, and a `Get`
on anything else can reach it only through nested `Get`s that also take the
fast path. -/
theorem containerGet_preserve_initialized :
    ∀ (f : Nat) (st : Container) (chain : List Key) (key k0 : Key)
      (sw0 : serviceWrapper), lookupService st k0 = some sw0 →
      sw0.initialized = true →
      lookupService (containerGet f st chain key).1 k0 = some sw0 ∧
      Event.build k0 ∉ (containerGet f st chain key).2.2 := by
  intro f
  induction f with
  | zero =>
    intro st chain key k0 sw0 h0 _
    simpa [containerGet] using h0
  | succ f ih =>
    intro st chain key k0 sw0 h0 hini
    show lookupService (containerGetAux (containerGet f) st chain key).1 k0 = some sw0 ∧
      Event.build k0 ∉ (containerGetAux (containerGet f) st chain key).2.2
    rcases hlk : lookupService st key with _ | sw
    · simpa [containerGetAux, hlk] using h0
    · by_cases hkc : key ∈ chain
      · simpa [containerGetAux, hlk, hkc] using h0
      · by_cases hin : sw.initialized
        · simpa [containerGetAux, hlk, hkc, hin] using h0
        · have hne : key ≠ k0 := by
            intro hh
            subst hh
            rw [hlk] at h0
            cases h0
            exact hin hini
          have hrun := runBuilderGets_inv (fun s g => containerGet f s (key :: chain) g)
            (fun s => lookupService s k0 = some sw0) (fun ev => ev ≠ Event.build k0)
            (fun s g hQ => by
              obtain ⟨h1, h2⟩ := ih s (key :: chain) g k0 sw0 hQ hini
              exact ⟨h1, fun ev hev hh => h2 (hh ▸ hev)⟩)
            sw.builder.gets st h0
          rcases hR : runBuilderGets (fun s g => containerGet f s (key :: chain) g)
              st sw.builder.gets with ⟨st1, r1, log1⟩
          rw [hR] at hrun
          simp only at hrun
          obtain ⟨hQ1, hE1⟩ := hrun
          cases r1 with
          | error e =>
            refine ⟨?_, ?_⟩
            · simpa [containerGetAux, hlk, hkc, hin, hR] using hQ1
            · intro hev
              simp [containerGetAux, hlk, hkc, hin, hR] at hev
              rcases hev with hev | hev
              · exact hne hev.symm
              · exact hE1 _ hev rfl
          | ok ds =>
            have hup := fun (fnx : serviceWrapper → serviceWrapper) =>
              @lookupService_update_ne st1 key k0 fnx (fun hh => hne hh.symm)
            rcases houc : sw.builder.outcome with ⟨v, cl⟩ | e | pv
            · refine ⟨?_, ?_⟩
              · simpa [containerGetAux, hlk, hkc, hin, hR, houc, hup] using hQ1
              · intro hev
                simp [containerGetAux, hlk, hkc, hin, hR, houc] at hev
                rcases hev with hev | hev
                · exact hne hev.symm
                · exact hE1 _ hev rfl
            · refine ⟨?_, ?_⟩
              · simpa [containerGetAux, hlk, hkc, hin, hR, houc] using hQ1
              · intro hev
                simp [containerGetAux, hlk, hkc, hin, hR, houc] at hev
                rcases hev with hev | hev
                · exact hne hev.symm
                · exact hE1 _ hev rfl
            · refine ⟨?_, ?_⟩
              · simpa [containerGetAux, hlk, hkc, hin, hR, houc] using hQ1
              · intro hev
                simp [containerGetAux, hlk, hkc, hin, hR, houc] at hev
                rcases hev with hev | hev
                · exact hne hev.symm
                · exact hE1 _ hev rfl

/-- Fast path of `ensureInitialized`: a top-level `Get` on an initialized
entry returns the cached service and dependency, makes no state change and
invokes no builder. -/
theorem containerGet_cached (f : Nat) (st : Container) (key : Key)
    (sw : serviceWrapper) (h1 : lookupService st key = some sw)
    (h2 : sw.initialized = true) :
    containerGet (f + 1) st [] key = (st, .ok (sw.service, sw.dependency), []) := by
  show containerGetAux (containerGet f) st [] key = _
  simp [containerGetAux, h1, h2]

/-- A successful top-level `Get` on an uninitialized entry invokes that
entry's builder exactly once and stores the returned service and the new
dependency node in the entry. -/
theorem containerGet_built (f : Nat) (st : Container) (key : Key)
    (sw : serviceWrapper) (st' : Container) (v : Option Service)
    (d : Option Dependency) (log : List Event)
    (h1 : lookupService st key = some sw) (h2 : sw.initialized = false)
    (h3 : containerGet (f + 1) st [] key = (st', .ok (v, d), log)) :
    countBuild key log = 1 ∧
    ∃ sw', lookupService st' key = some sw' ∧ sw'.initialized = true ∧
      sw'.service = v ∧ sw'.dependency = d := by
  have hrun := runBuilderGets_inv (fun s g => containerGet f s (key :: []) g)
    (fun s => lookupService s key = some sw) (fun ev => ev ≠ Event.build key)
    (fun s g hQ => by
      obtain ⟨hq, he⟩ := containerGet_preserve_locked f s (key :: []) g key sw
        (List.mem_cons_self _ _) hQ
      exact ⟨hq, fun ev hev hh => he (hh ▸ hev)⟩)
    sw.builder.gets st h1
  rcases hR : runBuilderGets (fun s g => containerGet f s (key :: []) g)
      st sw.builder.gets with ⟨st1, r1, log1⟩
  rw [hR] at hrun
  simp only at hrun
  obtain ⟨hQ1, hE1⟩ := hrun
  cases r1 with
  | error e =>
    rw [show containerGet (f + 1) st [] key
        = containerGetAux (containerGet f) st [] key from rfl] at h3
    simp [containerGetAux, h1, h2, hR] at h3
  | ok ds =>
    rcases houc : sw.builder.outcome with ⟨bv, cl⟩ | e | pv
    · rw [show containerGet (f + 1) st [] key
          = containerGetAux (containerGet f) st [] key from rfl] at h3
      simp only [containerGetAux, h1, h2, hR, houc, List.not_mem_nil, if_false,
        Bool.false_eq_true, if_neg, ite_false] at h3
      simp only [Prod.mk.injEq, Except.ok.injEq] at h3
      obtain ⟨hst, ⟨hv, hd⟩, hlog⟩ := h3
      constructor
      · rw [← hlog]
        unfold countBuild
        rw [List.countP_cons_of_pos _ _ (by simp)]
        have hzero : log1.countP (fun ev => decide (ev = Event.build key)) = 0 :=
          List.countP_eq_zero.mpr (fun a ha => by simpa using hE1 a ha)
        rw [hzero]
      · refine ⟨{ key := sw.key, builder := sw.builder, initialized := true,
                  service := some bv, cl := cl,
                  dependency := some ⟨key.typ, key.name, ds⟩ }, ?_, rfl, hv, hd⟩
        rw [← hst]
        exact lookupService_update_self _ hQ1
    · rw [show containerGet (f + 1) st [] key
          = containerGetAux (containerGet f) st [] key from rfl] at h3
      simp [containerGetAux, h1, h2, hR, houc] at h3
    · rw [show containerGet (f + 1) st [] key
          = containerGetAux (containerGet f) st [] key from rfl] at h3
      simp [containerGetAux, h1, h2, hR, houc] at h3

/-- Preservation of an initialized entry across any sequence of top-level
`Get` calls: the entry is untouched and its builder never runs. -/
theorem runGetSeq_preserve_initialized (f : Nat) :
    ∀ (ops : List Key) (st : Container) (k0 : Key) (sw0 : serviceWrapper),
      lookupService st k0 = some sw0 → sw0.initialized = true →
      lookupService (runGetSeq f st ops).1 k0 = some sw0 ∧
      Event.build k0 ∉ (runGetSeq f st ops).2 := by
  intro ops
  induction ops with
  | nil =>
    intro st k0 sw0 h0 _
    simpa [runGetSeq] using h0
  | cons k ks ih =>
    intro st k0 sw0 h0 hini
    obtain ⟨h1, h2⟩ := containerGet_preserve_initialized f st [] k k0 sw0 h0 hini
    rcases hg : containerGet f st [] k with ⟨st1, r1, log1⟩
    rw [hg] at h1 h2
    simp only at h1 h2
    obtain ⟨h3, h4⟩ := ih st1 k0 sw0 h1 hini
    rcases hs : runGetSeq f st1 ks with ⟨st2, log2⟩
    rw [hs] at h3 h4
    simp only at h3 h4
    refine ⟨?_, ?_⟩
    · simpa [runGetSeq, hg, hs] using h3
    · intro hev
      simp [runGetSeq, hg, hs] at hev
      rcases hev with hev | hev
      · exact h2 hev
      · exact h4 hev

/-! `Container.Close` machinery. -/

theorem insertSorted_perm (x : serviceWrapper) :
    ∀ l : List serviceWrapper, (insertSorted x l).Perm (x :: l) := by
  intro l
  induction l with
  | nil => simp [insertSorted]
  | cons y ys ih =>
    by_cases hle : closeLe x y
    · simp [insertSorted, hle]
    · simp only [insertSorted, hle, if_false, Bool.false_eq_true]
      exact ((ih.cons y).trans (List.Perm.swap x y ys))

theorem sortServices_perm :
    ∀ l : List serviceWrapper, (sortServices l).Perm l := by
  intro l
  induction l with
  | nil => simp [sortServices]
  | cons x xs ih =>
    exact (insertSorted_perm x (sortServices xs)).trans (ih.cons x)

/-- Full characterization of the `Close` loop on a list of wrappers whose
keys are distinct and which are all present in the container: every wrapper
receives a close attempt in order, each one ends up reset in the map, the
collected errors are exactly the key-wrapped failures, and untouched keys
keep their state. -/
theorem closeLoop_spec :
    ∀ (l : List serviceWrapper) (st : Container),
      (∀ x ∈ l, lookupService st x.key = some x) →
      (l.map serviceWrapper.key).Nodup →
      (∀ x ∈ l, lookupService (closeLoop st l).1 x.key = some (serviceWrapperClose x).1) ∧
      (∀ k, (∀ x ∈ l, x.key ≠ k) → lookupService (closeLoop st l).1 k = lookupService st k) ∧
      (closeLoop st l).2.1
        = l.filterMap (fun x => ((serviceWrapperClose x).2).map (GoError.serviceError x.key)) ∧
      (closeLoop st l).2.2 = l.map (fun x => Event.closeAttempt x.key) := by
  intro l
  induction l with
  | nil =>
    intro st _ _
    refine ⟨by simp, fun k _ => by simp [closeLoop], by simp [closeLoop], by simp [closeLoop]⟩
  | cons x rest ih =>
    intro st hl hnd
    rw [List.map_cons, List.nodup_cons] at hnd
    have hx : lookupService st x.key = some x := hl x (List.mem_cons_self _ _)
    have hcur : (lookupService st x.key).getD x = x := by rw [hx]; rfl
    have hxrest : ∀ y ∈ rest, y.key ≠ x.key := by
      intro y hy hh
      exact hnd.1 (hh ▸ List.mem_map.mpr ⟨y, hy, rfl⟩)
    have hst1 : ∀ y ∈ rest,
        lookupService (updateService st x.key (fun _ => (serviceWrapperClose x).1)) y.key
          = some y := by
      intro y hy
      rw [lookupService_update_ne _ (hxrest y hy)]
      exact hl y (List.mem_cons_of_mem _ hy)
    obtain ⟨ih1, ih2, ih3, ih4⟩ :=
      ih (updateService st x.key (fun _ => (serviceWrapperClose x).1)) hst1 hnd.2
    have hunf : closeLoop st (x :: rest)
        = ((closeLoop (updateService st x.key (fun _ => (serviceWrapperClose x).1)) rest).1,
           (match (serviceWrapperClose x).2 with
            | some e => GoError.serviceError x.key e
                :: (closeLoop (updateService st x.key (fun _ => (serviceWrapperClose x).1)) rest).2.1
            | none => (closeLoop (updateService st x.key (fun _ => (serviceWrapperClose x).1)) rest).2.1),
           Event.closeAttempt x.key
             :: (closeLoop (updateService st x.key (fun _ => (serviceWrapperClose x).1)) rest).2.2) := by
      rw [closeLoop, hcur]
    refine ⟨?_, ?_, ?_, ?_⟩
    · intro y hy
      rcases List.mem_cons.mp hy with rfl | hy'
      · rw [hunf]
        simp only
        rw [ih2 y.key (fun z hz => hxrest z hz)]
        exact lookupService_update_self _ hx
      · rw [hunf]
        simp only
        exact ih1 y hy'
    · intro k hk
      rw [hunf]
      simp only
      rw [ih2 k (fun z hz => hk z (List.mem_cons_of_mem _ hz))]
      exact lookupService_update_ne _ (fun hh => hk x (List.mem_cons_self _ _) hh.symm)
    · rw [hunf]
      simp only
      rw [List.filterMap_cons]
      rcases hcl : (serviceWrapperClose x).2 with _ | e
      · simpa [hcl] using ih3
      · simpa [hcl] using ih3
    · rw [hunf]
      simp only
      rw [List.map_cons]
      exact congrArg _ ih4

/-- Action of `serviceWrapperClose` on an initialized wrapper: reset happens
unconditionally, the closer's return is passed through. -/
theorem serviceWrapperClose_initialized (sw : serviceWrapper)
    (h : sw.initialized = true) :
    serviceWrapperClose sw
      = ({ sw with initialized := false, service := none, cl := none, dependency := none },
         match sw.cl with | some ret => ret | none => none) := by
  simp [serviceWrapperClose, h]

/-- Behavior of `Container.Close` under the container's key invariants: every entry is
reset in place, every entry receives a close attempt, failures are collected
as key-wrapped errors, and the collected list is empty exactly when every
per-entry close succeeded. -/
theorem containerClose_spec (st : Container) (hwf : WfKeys st) :
    (∀ p ∈ st, lookupService (containerClose st).1 p.1 = some (serviceWrapperClose p.2).1) ∧
    (∀ p ∈ st, Event.closeAttempt p.1 ∈ (containerClose st).2.2) ∧
    ((containerClose st).2.1 = [] ↔ ∀ p ∈ st, (serviceWrapperClose p.2).2 = none) ∧
    (∀ p ∈ st, ∀ e, (serviceWrapperClose p.2).2 = some e →
      GoError.serviceError p.1 e ∈ (containerClose st).2.1) := by
  obtain ⟨hnodup, hkey⟩ := hwf
  have hperm := sortServices_perm (st.map Prod.snd)
  have hmem : ∀ p ∈ st, p.2 ∈ sortServices (st.map Prod.snd) := by
    intro p hp
    exact hperm.mem_iff.mpr (List.mem_map.mpr ⟨p, hp, rfl⟩)
  have hl : ∀ x ∈ sortServices (st.map Prod.snd), lookupService st x.key = some x := by
    intro x hx
    obtain ⟨p, hp, hpx⟩ := List.mem_map.mp (hperm.mem_iff.mp hx)
    have hk : x.key = p.1 := by rw [← hpx]; exact hkey p hp
    rw [hk]
    have : (p.1, x) ∈ st := by
      rw [← hpx]
      exact hp
    exact lookupService_eq_of_mem hnodup this
  have hnd : ((sortServices (st.map Prod.snd)).map serviceWrapper.key).Nodup := by
    have h1 : (st.map Prod.snd).map serviceWrapper.key = st.map Prod.fst := by
      rw [List.map_map]
      exact List.map_congr_left (fun p hp => hkey p hp)
    exact ((hperm.map serviceWrapper.key).nodup_iff).mpr (h1 ▸ hnodup)
  obtain ⟨h1, _h2, h3, h4⟩ := closeLoop_spec (sortServices (st.map Prod.snd)) st hl hnd
  refine ⟨?_, ?_, ?_, ?_⟩
  · intro p hp
    have := h1 p.2 (hmem p hp)
    rwa [hkey p hp] at this
  · intro p hp
    show Event.closeAttempt p.1 ∈ (closeLoop st (sortServices (st.map Prod.snd))).2.2
    rw [h4]
    refine List.mem_map.mpr ⟨p.2, hmem p hp, ?_⟩
    rw [hkey p hp]
  · show (closeLoop st (sortServices (st.map Prod.snd))).2.1 = [] ↔ _
    rw [h3, List.filterMap_eq_nil_iff]
    constructor
    · intro hall p hp
      have := hall p.2 (hmem p hp)
      rcases hcl : (serviceWrapperClose p.2).2 with _ | e
      · rfl
      · rw [hcl] at this
        simp at this
    · intro hall x hx
      obtain ⟨p, hp, hpx⟩ := List.mem_map.mp (hperm.mem_iff.mp hx)
      rw [← hpx, hall p hp]
      rfl
  · intro p hp e he
    show _ ∈ (closeLoop st (sortServices (st.map Prod.snd))).2.1
    rw [h3]
    refine List.mem_filterMap.mpr ⟨p.2, hmem p hp, ?_⟩
    rw [he, hkey p hp]
    rfl

/-! Invariant preservation and postcondition of a successful `Get`. -/

theorem mem_updateService {st : Container} {key : Key}
    {fn : serviceWrapper → serviceWrapper} {p : Key × serviceWrapper} :
    p ∈ updateService st key fn →
    p ∈ st ∨ ∃ sw, lookupService st key = some sw ∧ p = (key, fn sw) := by
  induction st with
  | nil => simp [updateService]
  | cons q rest ih =>
    obtain ⟨k0, sw0⟩ := q
    by_cases hk : k0 = key
    · subst hk
      intro hp
      simp only [updateService, if_pos rfl] at hp
      rcases List.mem_cons.mp hp with rfl | hp'
      · exact Or.inr ⟨sw0, by simp [lookupService], rfl⟩
      · exact Or.inl (List.mem_cons_of_mem _ hp')
    · intro hp
      simp only [updateService, if_neg hk] at hp
      rcases List.mem_cons.mp hp with rfl | hp'
      · exact Or.inl (List.mem_cons_self _ _)
      · rcases ih hp' with h | ⟨sw, hsw, hpe⟩
        · exact Or.inl (List.mem_cons_of_mem _ h)
        · exact Or.inr ⟨sw, by simpa [lookupService, hk] using hsw, hpe⟩

theorem wf_updateService (st : Container) (key : Key)
    (fn : serviceWrapper → serviceWrapper)
    (hwk : WfKeys st) (hwd : WfDeps st)
    (hkeep : ∀ sw, (fn sw).key = sw.key)
    (hdep : ∀ sw, lookupService st key = some sw → DepOk key (fn sw)) :
    WfKeys (updateService st key fn) ∧ WfDeps (updateService st key fn) := by
  refine ⟨⟨?_, ?_⟩, ?_⟩
  · rw [updateService_map_fst]
    exact hwk.1
  · intro p hp
    rcases mem_updateService hp with h | ⟨sw, hsw, rfl⟩
    · exact hwk.2 p h
    · have : sw.key = key := hwk.2 (key, sw) (mem_of_lookupService hsw)
      simpa [hkeep sw] using this
  · intro p hp
    rcases mem_updateService hp with h | ⟨sw, hsw, rfl⟩
    · exact hwd p h
    · exact hdep sw hsw

theorem containerGet_preserve_wf :
    ∀ (f : Nat) (st : Container) (chain : List Key) (key : Key),
      WfKeys st → WfDeps st →
      WfKeys (containerGet f st chain key).1 ∧ WfDeps (containerGet f st chain key).1 := by
  intro f
  induction f with
  | zero =>
    intro st chain key hwk hwd
    exact ⟨hwk, hwd⟩
  | succ f ih =>
    intro st chain key hwk hwd
    show WfKeys (containerGetAux (containerGet f) st chain key).1 ∧
      WfDeps (containerGetAux (containerGet f) st chain key).1
    rcases hlk : lookupService st key with _ | sw
    · simpa [containerGetAux, hlk] using ⟨hwk, hwd⟩
    · by_cases hkc : key ∈ chain
      · simpa [containerGetAux, hlk, hkc] using ⟨hwk, hwd⟩
      · by_cases hin : sw.initialized
        · simpa [containerGetAux, hlk, hkc, hin] using ⟨hwk, hwd⟩
        · have hrun := runBuilderGets_inv (fun s g => containerGet f s (key :: chain) g)
            (fun s => WfKeys s ∧ WfDeps s) (fun _ => True)
            (fun s g hQ => ⟨ih s (key :: chain) g hQ.1 hQ.2, fun _ _ => trivial⟩)
            sw.builder.gets st ⟨hwk, hwd⟩
          rcases hR : runBuilderGets (fun s g => containerGet f s (key :: chain) g)
              st sw.builder.gets with ⟨st1, r1, log1⟩
          rw [hR] at hrun
          simp only at hrun
          obtain ⟨⟨hwk1, hwd1⟩, _⟩ := hrun
          cases r1 with
          | error e => simpa [containerGetAux, hlk, hkc, hin, hR] using ⟨hwk1, hwd1⟩
          | ok ds =>
            rcases houc : sw.builder.outcome with ⟨bv, cl⟩ | e | pv
            · have := wf_updateService st1 key
                (fun swCur => { swCur with initialized := true, service := some bv, cl := cl, dependency := some ⟨key.typ, key.name, ds⟩ })
                hwk1 hwd1 (fun sw' => rfl) (fun sw' _ _ => rfl)
              simpa [containerGetAux, hlk, hkc, hin, hR, houc] using this
            · simpa [containerGetAux, hlk, hkc, hin, hR, houc] using ⟨hwk1, hwd1⟩
            · simpa [containerGetAux, hlk, hkc, hin, hR, houc] using ⟨hwk1, hwd1⟩

/-- Postcondition of any successful `Get`: the got entry ends initialized,
holding exactly the returned service and dependency node, whose root labels
are the entry's own type and name. -/
theorem containerGet_post (f : Nat) (st : Container) (chain : List Key) (g : Key)
    (st' : Container) (v : Option Service) (dep? : Option Dependency) (log : List Event)
    (_hwk : WfKeys st) (hwd : WfDeps st)
    (h : containerGet f st chain g = (st', .ok (v, dep?), log)) :
    ∃ d swg, dep? = some d ∧ lookupService st' g = some swg ∧
      swg.initialized = true ∧ swg.service = v ∧ swg.dependency = some d ∧
      d.type = g.typ ∧ d.name = g.name := by
  cases f with
  | zero => simp [containerGet] at h
  | succ f =>
    rw [show containerGet (f + 1) st chain g
        = containerGetAux (containerGet f) st chain g from rfl] at h
    rcases hlk : lookupService st g with _ | sw
    · simp [containerGetAux, hlk] at h
    · by_cases hkc : g ∈ chain
      · simp [containerGetAux, hlk, hkc] at h
      · by_cases hin : sw.initialized
        · simp only [containerGetAux, hlk, hkc, hin, if_true, if_false, ite_true,
            ite_false, decide_False, decide_True, Prod.mk.injEq, Except.ok.injEq] at h
          obtain ⟨hst, ⟨hv, hd⟩, _⟩ := h
          have hdo := hwd (g, sw) (mem_of_lookupService hlk) hin
          rcases hdep : sw.dependency with _ | d0
          · rw [hdep] at hdo
            simp [depLabels] at hdo
          · rw [hdep] at hdo
            simp only [depLabels, Option.some.injEq, Prod.mk.injEq] at hdo
            exact ⟨d0, sw, by rw [← hd, hdep], by rw [← hst]; exact hlk, hin, hv,
              hdep, hdo.1, hdo.2⟩
        · have hpres := fun s (hQ : lookupService s g = some sw) g2 =>
            (containerGet_preserve_locked f s (g :: chain) g2 g sw
              (List.mem_cons_self _ _) hQ).1
          have hrun := runBuilderGets_inv (fun s g2 => containerGet f s (g :: chain) g2)
            (fun s => lookupService s g = some sw) (fun _ => True)
            (fun s g2 hQ => ⟨hpres s hQ g2, fun _ _ => trivial⟩)
            sw.builder.gets st hlk
          rcases hR : runBuilderGets (fun s g2 => containerGet f s (g :: chain) g2)
              st sw.builder.gets with ⟨st1, r1, log1⟩
          rw [hR] at hrun
          simp only at hrun
          obtain ⟨hQ1, _⟩ := hrun
          cases r1 with
          | error e => simp [containerGetAux, hlk, hkc, hin, hR] at h
          | ok ds =>
            rcases houc : sw.builder.outcome with ⟨bv, cl⟩ | e | pv
            · simp only [containerGetAux, hlk, hkc, hin, hR, houc, if_neg hkc,
                Bool.false_eq_true, ite_false, Prod.mk.injEq, Except.ok.injEq] at h
              obtain ⟨hst, ⟨hv, hd⟩, _⟩ := h
              refine ⟨⟨g.typ, g.name, ds⟩,
                { key := sw.key, builder := sw.builder, initialized := true,
                  service := some bv, cl := cl,
                  dependency := some ⟨g.typ, g.name, ds⟩ },
                by rw [← hd], ?_, rfl, hv, rfl, rfl, rfl⟩
              rw [← hst]
              exact lookupService_update_self _ hQ1
            · simp [containerGetAux, hlk, hkc, hin, hR, houc] at h
            · simp [containerGetAux, hlk, hkc, hin, hR, houc] at h

/-- Each successful nested `Get` of a builder contributes exactly one child
node — even when served from the cache — in completion order, and after the
whole loop each child's entry is initialized holding exactly that node. -/
theorem runBuilderGets_post (f : Nat) (chain : List Key) :
    ∀ (gs : List Key) (st st1 : Container) (ds : List Dependency) (log : List Event),
      WfKeys st → WfDeps st →
      runBuilderGets (fun s g => containerGet f s chain g) st gs = (st1, .ok ds, log) →
      WfKeys st1 ∧ WfDeps st1 ∧
      List.Forall₂ (fun (d : Dependency) (g : Key) => d.type = g.typ ∧ d.name = g.name ∧
        ∃ swg, lookupService st1 g = some swg ∧ swg.initialized = true ∧
          swg.dependency = some d) ds gs := by
  intro gs
  induction gs with
  | nil =>
    intro st st1 ds log hwk hwd h
    simp only [runBuilderGets, Prod.mk.injEq, Except.ok.injEq] at h
    obtain ⟨hst, hds, _⟩ := h
    subst hst
    rw [← hds]
    exact ⟨hwk, hwd, List.Forall₂.nil⟩
  | cons g gs' ih =>
    intro st st1 ds log hwk hwd h
    rcases hg : containerGet f st chain g with ⟨stA, rA, logA⟩
    cases rA with
    | error e => simp [runBuilderGets, hg] at h
    | ok vd =>
      obtain ⟨va, da?⟩ := vd
      have hwfA := containerGet_preserve_wf f st chain g hwk hwd
      rw [hg] at hwfA
      simp only at hwfA
      obtain ⟨hwkA, hwdA⟩ := hwfA
      obtain ⟨da, swg, hda, hlook, hini, _hsv, hdep, hty, hna⟩ :=
        containerGet_post f st chain g stA va da? logA hwk hwd hg
      rcases hr2 : runBuilderGets (fun s g2 => containerGet f s chain g2) stA gs'
          with ⟨stB, rB, logB⟩
      cases rB with
      | error e => simp [runBuilderGets, hg, hr2] at h
      | ok dsB =>
        obtain ⟨hwkB, hwdB, hforB⟩ := ih stA stB dsB logB hwkA hwdA hr2
        have hpres := runBuilderGets_inv (fun s g2 => containerGet f s chain g2)
          (fun s => lookupService s g = some swg) (fun _ => True)
          (fun s g2 hQ =>
            ⟨(containerGet_preserve_initialized f s chain g2 g swg hQ hini).1,
             fun _ _ => trivial⟩)
          gs' stA hlook
        rw [hr2] at hpres
        simp only at hpres
        simp only [runBuilderGets, hg, hr2, hda, Prod.mk.injEq, Except.ok.injEq] at h
        obtain ⟨hst, hds, _⟩ := h
        subst hst
        rw [← hds]
        exact ⟨hwkB, hwdB, List.Forall₂.cons ⟨hty, hna, swg, hpres.1, hini, hdep⟩ hforB⟩

/-- A top-level `Get` on a present, uninitialized entry always invokes that
entry's builder (there is no other path: the lock succeeds and the fast path
is unavailable). -/
theorem uninitialized_get_invokes_builder (g : Nat) (st : Container) (k : Key)
    (sw : serviceWrapper) (h1 : lookupService st k = some sw)
    (h2 : sw.initialized = false) :
    Event.build k ∈ (containerGet (g + 1) st [] k).2.2 := by
  show Event.build k ∈ (containerGetAux (containerGet g) st [] k).2.2
  rcases hR : runBuilderGets (fun s g2 => containerGet g s (k :: []) g2)
      st sw.builder.gets with ⟨st1, r1, log1⟩
  cases r1 with
  | error e =>
    simp [containerGetAux, h1, h2, hR]
  | ok ds =>
    rcases houc : sw.builder.outcome with ⟨bv, cl⟩ | e | pv <;>
      simp [containerGetAux, h1, h2, hR, houc]

/-- C1: For every key registered in a container, across any number of Get
calls between container creation (or the previous Close) and the next Close,
the key's builder is invoked at most once: the first successful Get invokes
it and stores the result (exactly one builder invocation in its log), and
every subsequent Get on that key — indeed any further sequence of top-level
Gets — returns the same cached instance without invoking the builder again
and without changing the entry. -/
theorem builder_runs_at_most_once (f : Nat) (st : Container) (k : Key)
    (sw : serviceWrapper) (h1 : lookupService st k = some sw) :
    (sw.initialized = true →
      containerGet (f + 1) st [] k = (st, .ok (sw.service, sw.dependency), []) ∧
      ∀ ops : List Key, countBuild k (runGetSeq f st ops).2 = 0 ∧
        lookupService (runGetSeq f st ops).1 k = some sw) ∧
    (sw.initialized = false →
      ∀ st' v d log, containerGet (f + 1) st [] k = (st', .ok (v, d), log) →
        countBuild k log = 1 ∧
        ∃ sw', lookupService st' k = some sw' ∧ sw'.initialized = true ∧
          sw'.service = v ∧ sw'.dependency = d) := by
  constructor
  · intro hini
    refine ⟨containerGet_cached f st k sw h1 hini, fun ops => ?_⟩
    obtain ⟨ha, hb⟩ := runGetSeq_preserve_initialized f ops st k sw h1 hini
    refine ⟨?_, ha⟩
    refine List.countP_eq_zero.mpr (fun a haa => ?_)
    simp only [decide_eq_true_eq]
    rintro rfl
    exact hb haa
  · intro hini st' v d log h3
    exact containerGet_built f st k sw st' v d log h1 hini h3

/-- Witness for C1 at a one-entry container whose service is already built:
three further Gets invoke no builder, and a single Get returns the cache. -/
theorem builder_runs_at_most_once_witness :
    lookupService builtContainer kStr = some builtWrapper ∧
    builtWrapper.initialized = true ∧
    countBuild kStr (runGetSeq 3 builtContainer [kStr, kStr, kStr]).2 = 0 ∧
    containerGet 4 builtContainer [] kStr
      = (builtContainer, .ok (some 7, some ⟨"string", "", []⟩), []) :=
  ⟨rfl, rfl,
   (((builder_runs_at_most_once 3 builtContainer kStr builtWrapper rfl).1 rfl).2
     [kStr, kStr, kStr]).1,
   ((builder_runs_at_most_once 3 builtContainer kStr builtWrapper rfl).1 rfl).1⟩

/-- C2: For keys a, b, c registered so that a's builder Gets b, b's Gets c,
and c's Gets a (forwarding the received context), Get(a) fails with the
cycle error: the error satisfies `errors.Is(err, ErrCycle)`, its text
enumerates the full path in breadcrumb form, the container is unchanged,
and the mutex detects the cycle from the lock chain before any blocking is
attempted — even a held permit with no cancellation (the would-block case)
yields the cycle failure, not a wait. -/
theorem cycle_detected_not_deadlock :
    containerGet 4 cycleContainer [] keyA
      = (cycleContainer,
         .error (.serviceError keyA (.serviceError keyB (.serviceError keyC
            (.serviceError keyA .cycle)))),
         [.build keyA, .build keyB, .build keyC]) ∧
    errorIs (.serviceError keyA (.serviceError keyB (.serviceError keyC
      (.serviceError keyA .cycle)))) .cycle = true ∧
    errorString (.serviceError keyA (.serviceError keyB (.serviceError keyC
      (.serviceError keyA .cycle))))
      = "service string(a): service string(b): service string(c): service string(a): cycle" ∧
    mutexLock keyA [keyC, keyB, keyA] true none = .failed .cycle :=
  ⟨rfl, rfl, rfl, rfl⟩

/-- C3: Close attempts to close every entry and never aborts early: every
entry receives a close attempt regardless of prior failures, each failing
entry's error is wrapped with its key and collected, and the collected list
(joined by `errors.Join`, which is nil exactly on the empty list) is empty
precisely when no teardown fails. -/
theorem close_never_aborts_early (st : Container) (hwf : WfKeys st) :
    (∀ p ∈ st, Event.closeAttempt p.1 ∈ (containerClose st).2.2) ∧
    (∀ p ∈ st, ∀ e, (serviceWrapperClose p.2).2 = some e →
      GoError.serviceError p.1 e ∈ (containerClose st).2.1) ∧
    ((containerClose st).2.1 = [] ↔ ∀ p ∈ st, (serviceWrapperClose p.2).2 = none) := by
  obtain ⟨_, h2, h3, h4⟩ := containerClose_spec st hwf
  exact ⟨h2, h4, h3⟩

/-- Witness for C3 on a two-entry container whose first closer fails: the
second entry is still attempted and the failure is collected wrapped with
its key. -/
theorem close_never_aborts_early_witness :
    WfKeys closeErrContainer ∧
    Event.closeAttempt keyB ∈ (containerClose closeErrContainer).2.2 ∧
    GoError.serviceError keyA (.msg "boom") ∈ (containerClose closeErrContainer).2.1 :=
  ⟨by decide,
   (close_never_aborts_early closeErrContainer (by decide)).1 (keyB, goodCloserWrapper)
     (List.mem_cons_of_mem _ (List.mem_cons_self _ _)),
   (close_never_aborts_early closeErrContainer (by decide)).2.1 (keyA, badCloserWrapper)
     (List.mem_cons_self _ _) (.msg "boom") rfl⟩

/-- C4: If a builder invocation fails (returns an error or panics), the
service entry's state is unchanged by the attempt — it remains exactly the
uninitialized wrapper it was — so a subsequent Get on the same key invokes
the builder again. -/
theorem failed_build_leaves_entry_unchanged (f : Nat) (st : Container) (k : Key)
    (sw : serviceWrapper) (st' : Container) (e : GoError) (log : List Event)
    (h1 : lookupService st k = some sw) (h2 : sw.initialized = false)
    (h3 : containerGet (f + 1) st [] k = (st', .error e, log)) :
    lookupService st' k = some sw ∧
    ∀ g : Nat, Event.build k ∈ (containerGet (g + 1) st' [] k).2.2 := by
  have hrun := runBuilderGets_inv (fun s g2 => containerGet f s (k :: []) g2)
    (fun s => lookupService s k = some sw) (fun _ => True)
    (fun s g2 hQ =>
      ⟨(containerGet_preserve_locked f s (k :: []) g2 k sw
          (List.mem_cons_self _ _) hQ).1, fun _ _ => trivial⟩)
    sw.builder.gets st h1
  rcases hR : runBuilderGets (fun s g2 => containerGet f s (k :: []) g2)
      st sw.builder.gets with ⟨st1, r1, log1⟩
  rw [hR] at hrun
  simp only at hrun
  obtain ⟨hQ1, _⟩ := hrun
  rw [show containerGet (f + 1) st [] k
      = containerGetAux (containerGet f) st [] k from rfl] at h3
  have hsfix : lookupService st' k = some sw := by
    cases r1 with
    | error e1 =>
      simp only [containerGetAux, h1, h2, hR, List.not_mem_nil, if_true, if_false,
        ite_true, ite_false, decide_False, decide_True, Bool.false_eq_true,
        Prod.mk.injEq] at h3
      rw [← h3.1]
      exact hQ1
    | ok ds =>
      rcases houc : sw.builder.outcome with ⟨bv, cl⟩ | e0 | pv
      · simp [containerGetAux, h1, h2, hR, houc] at h3
      · simp only [containerGetAux, h1, h2, hR, houc, List.not_mem_nil, if_true,
          if_false, ite_true, ite_false, decide_False, decide_True,
          Bool.false_eq_true, Prod.mk.injEq] at h3
        rw [← h3.1]
        exact hQ1
      · simp only [containerGetAux, h1, h2, hR, houc, List.not_mem_nil, if_true,
          if_false, ite_true, ite_false, decide_False, decide_True,
          Bool.false_eq_true, Prod.mk.injEq] at h3
        rw [← h3.1]
        exact hQ1
  exact ⟨hsfix, fun g => uninitialized_get_invokes_builder g st' k sw hsfix h2⟩

/-- Witness for C4: the one-entry container whose builder always errors is
bit-for-bit unchanged by a failed Get, and a retry invokes the builder. -/
theorem failed_build_leaves_entry_unchanged_witness :
    lookupService failingContainer kStr
      = some (newServiceWrapper kStr ⟨[], .err (.msg "error")⟩) ∧
    containerGet 1 failingContainer [] kStr
      = (failingContainer, .error (.serviceError kStr (.msg "error")), [.build kStr]) ∧
    lookupService failingContainer kStr
      = some (newServiceWrapper kStr ⟨[], .err (.msg "error")⟩) ∧
    Event.build kStr ∈ (containerGet 1 failingContainer [] kStr).2.2 :=
  ⟨rfl, rfl,
   (failed_build_leaves_entry_unchanged 0 failingContainer kStr
     (newServiceWrapper kStr ⟨[], .err (.msg "error")⟩) failingContainer
     (.serviceError kStr (.msg "error")) [.build kStr] rfl rfl rfl).1,
   (failed_build_leaves_entry_unchanged 0 failingContainer kStr
     (newServiceWrapper kStr ⟨[], .err (.msg "error")⟩) failingContainer
     (.serviceError kStr (.msg "error")) [.build kStr] rfl rfl rfl).2 0⟩

/-- C5: Close resets each initialized entry to uninitialized, clearing its
instance, closer and dependency node; after the Close a Get on the same key
invokes the builder again, and a successful rebuild invokes it exactly
once. -/
theorem close_resets_and_rebuild_builds_once (f : Nat) (st : Container) (k : Key)
    (sw : serviceWrapper) (hwf : WfKeys st) (h1 : lookupService st k = some sw)
    (h2 : sw.initialized = true) :
    lookupService (containerClose st).1 k = some (resetWrapper sw) ∧
    Event.build k ∈ (containerGet (f + 1) (containerClose st).1 [] k).2.2 ∧
    (∀ st2 v d log,
      containerGet (f + 1) (containerClose st).1 [] k = (st2, .ok (v, d), log) →
      countBuild k log = 1) := by
  obtain ⟨hreset, _, _, _⟩ := containerClose_spec st hwf
  have hres := hreset (k, sw) (mem_of_lookupService h1)
  rw [serviceWrapperClose_initialized sw h2] at hres
  exact ⟨hres,
    uninitialized_get_invokes_builder f (containerClose st).1 k _ hres rfl,
    fun st2 v d log h3 => (containerGet_built f (containerClose st).1 k _ st2 v d log
      hres rfl h3).1⟩

/-- Witness for C5 on the one-entry built container: Close resets the entry
and the next Get builds (appears in the log). -/
theorem close_resets_and_rebuild_builds_once_witness :
    WfKeys builtContainer ∧
    lookupService builtContainer kStr = some builtWrapper ∧
    builtWrapper.initialized = true ∧
    lookupService (containerClose builtContainer).1 kStr
      = some (resetWrapper builtWrapper) ∧
    Event.build kStr ∈ (containerGet 1 (containerClose builtContainer).1 [] kStr).2.2 :=
  ⟨by decide, rfl, rfl,
   (close_resets_and_rebuild_builds_once 0 builtContainer kStr builtWrapper
     (by decide) rfl rfl).1,
   (close_resets_and_rebuild_builds_once 0 builtContainer kStr builtWrapper
     (by decide) rfl rfl).2.1⟩

/-- C6: For every key whose build succeeds, GetDependency returns a tree
whose root carries that key's type and name and whose children correspond
one-to-one, in completion order, to the keys Get'd inside that key's builder
— including nested Gets served from the cache — each child being exactly
the subtree GetDependency returns for that child key afterwards. -/
theorem getDependency_returns_build_tree (f : Nat) (st : Container) (k : Key)
    (sw : serviceWrapper) (st' : Container) (d : Dependency) (log : List Event)
    (hwk : WfKeys st) (hwd : WfDeps st)
    (h1 : lookupService st k = some sw) (h2 : sw.initialized = false)
    (h3 : containerGetDependency (f + 1) st k = (st', .ok (some d), log)) :
    d.type = k.typ ∧ d.name = k.name ∧
    List.Forall₂ (fun (c : Dependency) (g : Key) => c.type = g.typ ∧ c.name = g.name ∧
      containerGetDependency 1 st' g = (st', .ok (some c), []))
      d.dependencies sw.builder.gets := by
  rcases hg : containerGet (f + 1) st [] k with ⟨stx, rx, logx⟩
  cases rx with
  | error e => simp [containerGetDependency, hg] at h3
  | ok vd =>
    obtain ⟨vx, dx?⟩ := vd
    simp only [containerGetDependency, hg, Prod.mk.injEq, Except.ok.injEq] at h3
    obtain ⟨hstx, hdx, _hlogx⟩ := h3
    -- expose the build structure of the successful Get
    have hQrun := runBuilderGets_inv (fun s g2 => containerGet f s (k :: []) g2)
      (fun s => lookupService s k = some sw) (fun _ => True)
      (fun s g2 hQ =>
        ⟨(containerGet_preserve_locked f s (k :: []) g2 k sw
            (List.mem_cons_self _ _) hQ).1, fun _ _ => trivial⟩)
      sw.builder.gets st h1
    rw [show containerGet (f + 1) st [] k
        = containerGetAux (containerGet f) st [] k from rfl] at hg
    rcases hR : runBuilderGets (fun s g2 => containerGet f s (k :: []) g2)
        st sw.builder.gets with ⟨st1, r1, log1⟩
    rw [hR] at hQrun
    simp only at hQrun
    obtain ⟨hQ1, _⟩ := hQrun
    cases r1 with
    | error e => simp [containerGetAux, h1, h2, hR] at hg
    | ok ds =>
      obtain ⟨hwk1, hwd1, hfor⟩ :=
        runBuilderGets_post f (k :: []) sw.builder.gets st st1 ds log1 hwk hwd hR
      rcases houc : sw.builder.outcome with ⟨bv, cl⟩ | e | pv
      · simp only [containerGetAux, h1, h2, hR, houc, List.not_mem_nil, if_true,
          if_false, ite_true, ite_false, decide_False, decide_True,
          Bool.false_eq_true, Prod.mk.injEq, Except.ok.injEq] at hg
        obtain ⟨hstu, ⟨_hvx, hdep⟩, _⟩ := hg
        have hd : d = ⟨k.typ, k.name, ds⟩ := by
          rw [← hdep] at hdx
          exact Option.some.injEq .. ▸ hdx.symm
        subst hd
        refine ⟨rfl, rfl, ?_⟩
        refine List.Forall₂.imp ?_ hfor
        rintro c g ⟨hty, hna, swg, hlook, hig, hdg⟩
        have hgk : g ≠ k := by
          rintro rfl
          rw [hlook] at hQ1
          cases hQ1
          rw [hig] at h2
          cases h2
        have hlook' : lookupService st' g = some swg := by
          rw [← hstx, ← hstu]
          rw [lookupService_update_ne _ hgk]
          exact hlook
        have hcached := containerGet_cached 0 st' g swg hlook' hig
        refine ⟨hty, hna, ?_⟩
        simp [containerGetDependency, hcached, hdg]
      · simp [containerGetAux, h1, h2, hR, houc] at hg
      · simp [containerGetAux, h1, h2, hR, houc] at hg

/-- Witness for C6: building `string(a)` (whose builder Gets `string(b)`)
yields the root labelled a with the single child subtree of b. -/
theorem getDependency_returns_build_tree_witness :
    WfKeys depContainer ∧ WfDeps depContainer ∧
    lookupService depContainer keyA = some (newServiceWrapper keyA ⟨[keyB], .ok 1 none⟩) ∧
    containerGetDependency 2 depContainer keyA
      = (depContainerBuilt, .ok (some ⟨"string", "a", [⟨"string", "b", []⟩]⟩),
         [.build keyA, .build keyB]) ∧
    List.Forall₂ (fun (c : Dependency) (g : Key) => c.type = g.typ ∧ c.name = g.name ∧
      containerGetDependency 1 depContainerBuilt g = (depContainerBuilt, .ok (some c), []))
      (Dependency.mk "string" "a" [⟨"string", "b", []⟩]).dependencies
      (newServiceWrapper keyA ⟨[keyB], .ok 1 none⟩).builder.gets :=
  ⟨by decide, by decide, rfl, rfl,
   (getDependency_returns_build_tree 1 depContainer keyA
     (newServiceWrapper keyA ⟨[keyB], .ok 1 none⟩) depContainerBuilt
     ⟨"string", "a", [⟨"string", "b", []⟩]⟩ [.build keyA, .build keyB]
     (by decide) (by decide) rfl rfl rfl).2.2⟩

/-- Counterexample to C7 as stated: a builder that panics with the non-error
value `"boom"` makes Get return an error (no panic propagates), but that
error's cause does NOT unwrap to the original panicked value — the unwrap
chain ends at the `PanicError`, whose `Unwrap` returns nil because the
recovered value is not an error.  The value survives only in the
`Recovered` field. -/
theorem panic_unwrap_counterexample :
    containerGet 1 panicStrContainer [] kStr
      = (panicStrContainer, .error (.serviceError kStr (.panicErrorS "boom")),
         [.build kStr]) ∧
    errorUnwrap (.serviceError kStr (.panicErrorS "boom"))
      = some (.panicErrorS "boom") ∧
    errorUnwrap (.panicErrorS "boom") = none :=
  ⟨rfl, rfl, rfl⟩

/-- C7 (amended): If a builder panics, Get returns an error instead of
letting the panic propagate — the key-wrapped `PanicError` carrying the
recovered value — and when the panicked value is an error, the `PanicError`
unwraps to it (for a non-error value `Unwrap` returns nil, see the
counterexample). -/
theorem panic_returns_error_to_caller (f : Nat) (st : Container) (k : Key)
    (sw : serviceWrapper) (st1 : Container) (ds : List Dependency)
    (log1 : List Event) (pv : PanicVal)
    (h1 : lookupService st k = some sw) (h2 : sw.initialized = false)
    (h3 : sw.builder.outcome = .panics pv)
    (h4 : runBuilderGets (fun s g => containerGet f s (k :: []) g) st sw.builder.gets
          = (st1, .ok ds, log1)) :
    containerGet (f + 1) st [] k
      = (st1, .error (.serviceError k pv.toPanicError), .build k :: log1) ∧
    (∀ e, pv = .errVal e → errorUnwrap pv.toPanicError = some e) := by
  constructor
  · show containerGetAux (containerGet f) st [] k = _
    simp [containerGetAux, h1, h2, h3, h4]
  · intro e he
    rw [he]
    rfl

/-- Witness for C7 (amended) at a builder panicking with an error value. -/
theorem panic_returns_error_to_caller_witness :
    lookupService panicErrContainer kStr
      = some (newServiceWrapper kStr ⟨[], .panics (.errVal (.msg "boom"))⟩) ∧
    containerGet 1 panicErrContainer [] kStr
      = (panicErrContainer, .error (.serviceError kStr (.panicErrorE (.msg "boom"))),
         [.build kStr]) ∧
    errorUnwrap (PanicVal.errVal (.msg "boom")).toPanicError = some (.msg "boom") :=
  ⟨rfl,
   (panic_returns_error_to_caller 0 panicErrContainer kStr
     (newServiceWrapper kStr ⟨[], .panics (.errVal (.msg "boom"))⟩) panicErrContainer
     [] [] (.errVal (.msg "boom")) rfl rfl rfl rfl).1,
   (panic_returns_error_to_caller 0 panicErrContainer kStr
     (newServiceWrapper kStr ⟨[], .panics (.errVal (.msg "boom"))⟩) panicErrContainer
     [] [] (.errVal (.msg "boom")) rfl rfl rfl rfl).2 (.msg "boom") rfl⟩

/-- C8: Get on a key with no entry fails with the NotSet error wrapped with
that key: the error unwraps to `ErrNotSet` (`errors.Is` holds), its text is
`service <key>: not set`, and the key's display form is `<type>` or
`<type>(<name>)` when the name is non-empty. -/
theorem get_unset_key_fails_not_set (f : Nat) (st : Container) (k : Key)
    (h : lookupService st k = none) :
    containerGet (f + 1) st [] k = (st, .error (.serviceError k .notSet), []) ∧
    errorIs (.serviceError k .notSet) .notSet = true ∧
    errorString (.serviceError k .notSet) = "service " ++ keyString k ++ ": not set" ∧
    keyString k = (if k.name = "" then k.typ else k.typ ++ "(" ++ k.name ++ ")") := by
  refine ⟨?_, rfl, ?_, rfl⟩
  · show containerGetAux (containerGet f) st [] k = _
    simp [containerGetAux, h]
  · show "service " ++ keyString k ++ ": " ++ "not set" = "service " ++ keyString k ++ ": not set"
    rw [String.append_assoc]
    rfl

/-- Witness for C8 at the empty container, for both display forms. -/
theorem get_unset_key_fails_not_set_witness :
    lookupService [] kStr = none ∧
    containerGet 1 [] [] kStr = ([], .error (.serviceError kStr .notSet), []) ∧
    errorString (.serviceError kStr .notSet) = "service string: not set" ∧
    errorString (.serviceError keyA .notSet) = "service string(a): not set" :=
  ⟨rfl,
   (get_unset_key_fails_not_set 0 [] kStr rfl).1,
   (get_unset_key_fails_not_set 0 [] kStr rfl).2.2.1,
   (get_unset_key_fails_not_set 0 [] keyA rfl).2.2.1⟩

/-- C9: When the lock is held elsewhere (so the caller must wait) and the
ambient context is already done, `mutex.lock` abandons the wait without
acquiring: it returns the context's own error verbatim — not a cycle or
lock error, not wrapped — while the same situation without a cancellation
signal blocks. -/
theorem canceled_wait_returns_ctx_error (m : Key) (chain : List Key) (e : GoError)
    (h : m ∉ chain) :
    mutexLock m chain true (some e) = .failed e ∧
    mutexLock m chain true none = .blocked := by
  rw [mutexLock, mutexLock]
  simp [h]

/-- Witness for C9 with `context.Canceled`. -/
theorem canceled_wait_returns_ctx_error_witness :
    kStr ∉ [keyA] ∧
    mutexLock kStr [keyA] true (some .canceled) = .failed .canceled ∧
    mutexLock kStr [keyA] true none = .blocked :=
  ⟨by decide,
   (canceled_wait_returns_ctx_error kStr [keyA] .canceled (by decide)).1,
   (canceled_wait_returns_ctx_error kStr [keyA] .canceled (by decide)).2⟩

/-- C10: Even when an entry's closer returns an error, closing resets the
entry — instance, closer and dependency node cleared — before the closer's
error is returned; through `Container.Close` the reset lands in the map and
the error is collected wrapped with the key, and a later Get invokes the
builder again. -/
theorem failed_closer_still_resets (st : Container) (k : Key)
    (sw : serviceWrapper) (e : GoError) (hwf : WfKeys st)
    (h1 : lookupService st k = some sw) (h2 : sw.initialized = true)
    (h3 : sw.cl = some (some e)) :
    serviceWrapperClose sw = (resetWrapper sw, some e) ∧
    lookupService (containerClose st).1 k = some (resetWrapper sw) ∧
    GoError.serviceError k e ∈ (containerClose st).2.1 ∧
    ∀ g : Nat, Event.build k ∈ (containerGet (g + 1) (containerClose st).1 [] k).2.2 := by
  have hclose : serviceWrapperClose sw = (resetWrapper sw, some e) := by
    rw [serviceWrapperClose_initialized sw h2, h3]
    rfl
  obtain ⟨hreset, _, _, hcollect⟩ := containerClose_spec st hwf
  have hres := hreset (k, sw) (mem_of_lookupService h1)
  rw [hclose] at hres
  refine ⟨hclose, hres, ?_, ?_⟩
  · refine hcollect (k, sw) (mem_of_lookupService h1) e ?_
    rw [hclose]
  · intro g
    exact uninitialized_get_invokes_builder g (containerClose st).1 k _ hres rfl

/-- Witness for C10 on the two-entry container with a failing closer. -/
theorem failed_closer_still_resets_witness :
    WfKeys closeErrContainer ∧
    lookupService closeErrContainer keyA = some badCloserWrapper ∧
    badCloserWrapper.initialized = true ∧
    badCloserWrapper.cl = some (some (.msg "boom")) ∧
    lookupService (containerClose closeErrContainer).1 keyA
      = some (resetWrapper badCloserWrapper) ∧
    Event.build keyA
      ∈ (containerGet 1 (containerClose closeErrContainer).1 [] keyA).2.2 :=
  ⟨by decide, rfl, rfl, rfl,
   (failed_closer_still_resets closeErrContainer keyA badCloserWrapper (.msg "boom")
     (by decide) rfl rfl rfl).2.1,
   (failed_closer_still_resets closeErrContainer keyA badCloserWrapper (.msg "boom")
     (by decide) rfl rfl rfl).2.2.2 0⟩
